import Mathlib

/-!
Verification development for the `aes-gcm-cli` repository.

The repository has two Python source files:

* `Main.py` — PBKDF2-based key derivation (`derive_key`), AES-GCM
  authenticated encryption and decryption of UTF-8 strings (`encrypt`,
  `decrypt`) with a URL-safe base64 token format `salt(16) ‖ nonce(12) ‖
  ciphertext_with_tag`, and a small CLI menu (`handle_decrypt` catches every
  exception of `decrypt` and prints one generic failure message).
* `passphrase_utils.py` — word-list loading (`load_word_list`), passphrase
  generation (`generate_passphrase`), and entropy estimation
  (`estimate_entropy_passphrase`, `estimate_entropy_password`).

The embedding below translates these functions into Lean.  External
collaborators of the repository (the `cryptography` library's `PBKDF2HMAC`
and `AESGCM` primitives, CPython's `base64`/`binascii` codec, the operating
system random source `os.urandom`, and Python's Unicode character
classification) are modelled explicitly; each such model carries a doc
comment saying what it stands for.  Floating-point arithmetic
(`math.log2`, float multiplication) is modelled over the real numbers.
-/

/-- Python exception classes that the modelled code can raise; one
constructor per concrete exception class observable by a caller
(`binascii.Error`, `ValueError`, `cryptography.exceptions.InvalidTag`,
`UnicodeDecodeError`). -/
inductive PyExc where
  | binasciiError
  | valueError
  | invalidTag
  | unicodeDecodeError
  deriving DecidableEq, Repr

/-- Byte sequences are lists of naturals; real bytes are below 256. -/
abbrev Bytes := List Nat

/-- Value of a base64 digit character.  Models CPython's `binascii`
translation table as it applies inside `base64.urlsafe_b64decode`, which
first maps `-` to `+` and `_` to `/` and then decodes with the standard
table, so both the standard and the URL-safe symbols carry a value. -/
def b64Digit (c : Char) : Option Nat :=
  if 'A' ≤ c ∧ c ≤ 'Z' then some (c.toNat - 65)
  else if 'a' ≤ c ∧ c ≤ 'z' then some (c.toNat - 97 + 26)
  else if '0' ≤ c ∧ c ≤ '9' then some (c.toNat - 48 + 52)
  else if c = '+' ∨ c = '-' then some 62
  else if c = '/' ∨ c = '_' then some 63
  else none

/-- Character of a six-bit value in the URL-safe base64 alphabet
(`A`–`Z`, `a`–`z`, `0`–`9`, `-`, `_`), as produced by
`base64.urlsafe_b64encode` (standard encoding followed by the translation
of `+` to `-` and `/` to `_`). -/
def b64Char (n : Nat) : Char :=
  if n < 26 then Char.ofNat (65 + n)
  else if n < 52 then Char.ofNat (97 + (n - 26))
  else if n < 62 then Char.ofNat (48 + (n - 52))
  else if n = 62 then '-'
  else '_'

/-- Core decoding loop of CPython's `binascii.a2b_base64` in its default
non-strict mode (what `base64.urlsafe_b64decode` calls): characters outside
the alphabet are discarded; an `=` is ignored until at least two data
characters of the current quad have been seen and then closes the stream
once the quad is completed by pad characters; leftover data characters at
the end of input are a `binascii.Error` (modelled as `none`).  Arguments:
remaining characters, quad position, pending bits, count of pad characters
seen in the current quad, accumulator (reversed output). -/
def a2bBase64 : List Char → Nat → Nat → Nat → Bytes → Option Bytes
  | [], quadPos, _, _, acc => if quadPos = 0 then some acc.reverse else none
  | c :: cs, quadPos, left, pads, acc =>
    if c = '=' then
      if 2 ≤ quadPos then
        if 4 ≤ quadPos + (pads + 1) then some acc.reverse
        else a2bBase64 cs quadPos left (pads + 1) acc
      else a2bBase64 cs quadPos left pads acc
    else
      match b64Digit c with
      | none => a2bBase64 cs quadPos left pads acc
      | some d =>
        match quadPos with
        | 0 => a2bBase64 cs 1 d 0 acc
        | 1 => a2bBase64 cs 2 (d % 16) 0 ((left * 4 + d / 16) :: acc)
        | 2 => a2bBase64 cs 3 (d % 4) 0 ((left * 16 + d / 4) :: acc)
        | _ => a2bBase64 cs 0 0 0 ((left * 64 + d) :: acc)

/-- Model of `base64.urlsafe_b64decode(token.encode("utf-8"))`.  Characters
whose UTF-8 bytes lie outside the alphabet are discarded by the non-strict
decoder, so the byte-level loop is equivalently run on the characters. -/
def urlsafeB64Decode (s : String) : Option Bytes := a2bBase64 s.data 0 0 0 []

/-- Model of `base64.urlsafe_b64encode`: three bytes become four alphabet
characters, with `=` padding for a final group of one or two bytes. -/
def b64EncodeGroups : Bytes → List Char
  | a :: b :: c :: rest =>
      b64Char (a / 4) :: b64Char (a % 4 * 16 + b / 16) ::
        b64Char (b % 16 * 4 + c / 64) :: b64Char (c % 64) :: b64EncodeGroups rest
  | [a, b] => [b64Char (a / 4), b64Char (a % 4 * 16 + b / 16), b64Char (b % 16 * 4), '=']
  | [a] => [b64Char (a / 4), b64Char (a % 4 * 16), '=', '=']
  | [] => []

/-- Model of `base64.urlsafe_b64encode(packed).decode("utf-8")`. -/
def urlsafeB64Encode (bs : Bytes) : String := String.mk (b64EncodeGroups bs)

example : urlsafeB64Decode "" = some [] := by decide
example : urlsafeB64Decode "A" = none := by decide
example : urlsafeB64Decode "AAAA" = some [0, 0, 0] := by decide
example : urlsafeB64Decode "YQ==" = some [97] := by decide
example : urlsafeB64Decode "YQ=" = none := by decide
example : urlsafeB64Encode [97] = "YQ==" := by decide
example : urlsafeB64Encode [1, 2, 3] = "AQID" := by decide
example : urlsafeB64Decode "AQID" = some [1, 2, 3] := by decide
example : urlsafeB64Decode "not-valid-base64!!" = some [158, 139, 126, 189, 169, 98, 119, 230, 218, 177, 238, 184] := by decide

/-- UTF-8 encoding of a Unicode code point (RFC 3629), as Python's
`str.encode("utf-8")` produces for each character of a string. -/
def utf8EncodeCp (n : Nat) : Bytes :=
  if n < 0x80 then [n]
  else if n < 0x800 then [0xC0 + n / 64, 0x80 + n % 64]
  else if n < 0x10000 then [0xE0 + n / 4096, 0x80 + n / 64 % 64, 0x80 + n % 64]
  else [0xF0 + n / 262144, 0x80 + n / 4096 % 64, 0x80 + n / 64 % 64, 0x80 + n % 64]

/-- Model of `plaintext.encode("utf-8")`. -/
def utf8Encode (s : String) : Bytes := (s.data.map (fun c => utf8EncodeCp c.toNat)).flatten

/-- Parsing loop of `bytes.decode("utf-8")`, processed one byte at a time:
`need` counts the continuation bytes still expected for the current code
point and `cur` holds the bits read so far.  A lead byte outside the legal
ranges, a missing or malformed continuation byte, or a truncated final code
point is a `UnicodeDecodeError` (modelled as `none`).  The model does not
re-check overlong forms or surrogate code points, which cannot arise from
`utf8Encode`. -/
def utf8DecodeLoop : Bytes → Nat → Nat → List Nat → Option (List Nat)
  | [], need, _, acc => if need = 0 then some acc.reverse else none
  | b :: bs, need, cur, acc =>
    if need = 0 then
      if b < 128 then utf8DecodeLoop bs 0 0 (b :: acc)
      else if b < 192 then none
      else if b < 224 then utf8DecodeLoop bs 1 (b - 192) acc
      else if b < 240 then utf8DecodeLoop bs 2 (b - 224) acc
      else if b < 248 then utf8DecodeLoop bs 3 (b - 240) acc
      else none
    else
      if 128 ≤ b ∧ b < 192 then
        if need = 1 then utf8DecodeLoop bs 0 0 ((cur * 64 + (b - 128)) :: acc)
        else utf8DecodeLoop bs (need - 1) (cur * 64 + (b - 128)) acc
      else none

/-- Model of `plaintext_bytes.decode("utf-8")`. -/
def utf8Decode (bs : Bytes) : Option String :=
  (utf8DecodeLoop bs 0 0 []).map (fun cps => String.mk (cps.map Char.ofNat))

/-- Injective encoding of a string into a natural number (code points plus
one, in base 1114112). -/
def strCode (s : String) : Nat := s.data.foldl (fun a c => a * 1114112 + (c.toNat + 1)) 1

/-- Encoding of a byte list into a natural number (bytes plus one, in base
257; injective on real byte lists). -/
def bytesCode (bs : Bytes) : Nat := bs.foldl (fun a b => a * 257 + (b + 1)) 1

/-- Modelled from the spec: `Main.derive_key` calls the external
`PBKDF2HMAC(SHA256, length=32, salt, iterations)` of the `cryptography`
library on `password.encode("utf-8")`.  Per spec §4.1 derivation is a
deterministic function of password, salt and iteration count producing
exactly 32 bytes; the hash internals are external, so the digest is
modelled as an ideal one: an encoding of the three inputs laid out in a
32-entry key.  The iteration count only scales computational cost. -/
def derive_key (password : String) (salt : Bytes) (iterations : Nat) : Bytes :=
  strCode password :: bytesCode salt :: iterations :: List.replicate 29 0

/-- Modelled from the spec: the external `cryptography` library's `AESGCM`
AEAD cipher (spec §4.2).  The cipher is outside the repository, so
`encrypt`/`decrypt` below are parameterised by any implementation of the
byte-level interface AES-GCM satisfies: `sealOp key nonce plaintext` appends
a 16-byte authentication tag to a plaintext-length ciphertext and produces
real bytes from real bytes; `openOp key nonce ct` inverts `sealOp` under the
same key and nonce, and never accepts a ciphertext shorter than the tag. -/
structure AEADModel where
  sealOp : Bytes → Bytes → Bytes → Bytes
  openOp : Bytes → Bytes → Bytes → Option Bytes
  sealOp_length : ∀ k n pt, (sealOp k n pt).length = pt.length + 16
  sealOp_bytes : ∀ k n pt, (∀ b ∈ pt, b < 256) → ∀ b ∈ sealOp k n pt, b < 256
  openOp_sealOp : ∀ k n pt, openOp k n (sealOp k n pt) = some pt
  openOp_short : ∀ k n ct, ct.length < 16 → openOp k n ct = none

/-- The 16-byte tag laid down by `fpAEAD`: a fingerprint of the key (its
first entry reduced to a byte) followed by fifteen zero bytes. -/
def fpTag (k : Bytes) : Bytes := k.headD 0 % 256 :: List.replicate 15 0

/-- Sealing of `fpAEAD`: ciphertext body is the plaintext, tag is the key
fingerprint. -/
def fpSeal (k _n pt : Bytes) : Bytes := pt ++ fpTag k

/-- Opening of `fpAEAD`: reject short ciphertexts, check the fingerprint,
return the body. -/
def fpOpen (k _n ct : Bytes) : Option Bytes :=
  if ct.length < 16 then none
  else if ct.drop (ct.length - 16) = fpTag k then some (ct.take (ct.length - 16))
  else none

/-- AEAD instance whose tag fingerprints the key and whose opening checks
that fingerprint, so that keys with different fingerprints reject each
other's ciphertexts — the behaviour AES-GCM authentication gives. -/
def fpAEAD : AEADModel where
  sealOp := fpSeal
  openOp := fpOpen
  sealOp_length := by
    intro k n pt
    simp [fpSeal, fpTag]
  sealOp_bytes := by
    intro k n pt hpt b hb
    simp only [fpSeal] at hb
    rcases List.mem_append.mp hb with h | h
    · exact hpt b h
    · rw [fpTag, List.mem_cons] at h
      rcases h with h | h
      · omega
      · have := List.eq_of_mem_replicate h
        omega
  openOp_sealOp := by
    intro k n pt
    have hlen : (pt ++ fpTag k).length = pt.length + 16 := by simp [fpTag]
    have hd : pt.length + 16 - 16 = pt.length := by omega
    have htag : (pt ++ fpTag k).drop (pt.length + 16 - 16) = fpTag k := by
      rw [hd]
      exact List.drop_left' rfl
    have htake : (pt ++ fpTag k).take (pt.length + 16 - 16) = pt := by
      rw [hd]
      exact List.take_left' rfl
    rw [fpSeal, fpOpen, hlen, htag, htake, if_neg (by omega), if_pos rfl]
  openOp_short := by
    intro k n ct h
    rw [fpOpen, if_pos h]

/-- Model of `Main.encrypt`.  The two `os.urandom` draws are the explicit
arguments `salt` (16 bytes) and `nonce` (12 bytes), and `A` is the AES-GCM
implementation.  The steps mirror the source: derive the key, sealOp the
UTF-8 plaintext, pack `salt + nonce + ciphertext`, base64-encode. -/
def encrypt (A : AEADModel) (plaintext password : String) (salt nonce : Bytes) : String :=
  let key := derive_key password salt 200000
  let ciphertext := A.sealOp key nonce (utf8Encode plaintext)
  let packed := salt ++ nonce ++ ciphertext
  urlsafeB64Encode packed

/-- Model of `Main.decrypt`, instrumented: the boolean records whether key
derivation was reached.  The source calls `derive_key` unconditionally once
base64 decoding succeeded — it performs no format or length validation of
its own.  Error mapping: base64 failure is `binascii.Error`; the AESGCM
nonce-length precondition (the library rejects nonces shorter than 8 bytes
with `ValueError`, checked inside `aesgcm.decrypt`, after derivation) is
`ValueError`; failed tag verification is `InvalidTag`; non-UTF-8 decrypted
bytes are `UnicodeDecodeError`.  The slices mirror `packed[:16]`,
`packed[16:28]`, `packed[28:]`. -/
def decryptT (A : AEADModel) (token password : String) : Except PyExc String × Bool :=
  match urlsafeB64Decode token with
  | none => (Except.error PyExc.binasciiError, false)
  | some packed =>
    let salt := packed.take 16
    let nonce := (packed.drop 16).take 12
    let ciphertext := packed.drop 28
    let key := derive_key password salt 200000
    if nonce.length < 8 then (Except.error PyExc.valueError, true)
    else
      match A.openOp key nonce ciphertext with
      | none => (Except.error PyExc.invalidTag, true)
      | some ptBytes =>
        match utf8Decode ptBytes with
        | none => (Except.error PyExc.unicodeDecodeError, true)
        | some pt => (Except.ok pt, true)

/-- Model of `Main.decrypt` as its caller sees it. -/
def decrypt (A : AEADModel) (token password : String) : Except PyExc String :=
  (decryptT A token password).1

/-- Model of the caller-visible outcome of `Main.handle_decrypt`: the CLI
wraps `decrypt` in `try/except Exception` and prints one fixed failure
text whatever the raised exception was. -/
def handleDecryptMessage (A : AEADModel) (token password : String) : String :=
  match decrypt A token password with
  | Except.ok pt => "--- DECRYPTION RESULT ---" ++ pt
  | Except.error _ => "!! Decryption failed."

/-- Whitespace characters Python `str.strip()` removes, restricted to the
ASCII ones (space, tab, LF, VT, FF, CR) — the characters that occur around
words in a line-based text file. -/
def isPyWs (c : Char) : Bool :=
  c = ' ' || c = '\t' || c = '\n' || c = '\x0b' || c = '\x0c' || c = '\r'

/-- Model of Python `str.strip()` as applied to word-list lines: drop
whitespace from both ends. -/
def pyStrip (s : String) : String :=
  String.mk (((s.data.dropWhile isPyWs).reverse.dropWhile isPyWs).reverse)

/-- Model of Python `line.startswith("#")`. -/
def startsWithHash (s : String) : Bool :=
  match s.data with
  | c :: _ => c = '#'
  | [] => false

/-- Model of `passphrase_utils.load_word_list`: the external file is given
as its list of lines; a line is kept when, once stripped, it is non-empty
and does not start with `#`; zero usable words raise `ValueError` (the
spec's `EmptyWordList`). -/
def load_word_list (lines : List String) : Except PyExc (List String) :=
  let words := (lines.map pyStrip).filter (fun w => w != "" && !(startsWithHash w))
  if words = [] then Except.error PyExc.valueError else Except.ok words

/-- Model of `passphrase_utils.generate_passphrase`.  The module-level
`WORD_LIST` (loaded at import time from the external `wordlist.txt`) is the
explicit `wordList` argument, and `secrets.choice` is the explicit oracle
`pick`: draw `i` selects the word at index `pick i` reduced below the list
length, matching the library's uniform index draw; draws are independent,
so repetition (replacement) is possible.  A non-positive word count raises
`ValueError` (the spec's `InvalidParameter`) before any draw. -/
def generate_passphrase (wordList : List String) (pick : Nat → Nat) (numWords : Int) :
    Except PyExc String :=
  if numWords ≤ 0 then Except.error PyExc.valueError
  else
    Except.ok (String.intercalate "-"
      ((List.range numWords.toNat).map (fun i => wordList.getD (pick i % wordList.length) "")))

/-- Model of `estimate_entropy_passphrase`: Python integers are `Int`, the
float result is an exact real and `math.log2` is `Real.logb 2`. -/
noncomputable def estimate_entropy_passphrase (numWords wordlistSize : Int) : ℝ :=
  if numWords ≤ 0 ∨ wordlistSize ≤ 1 then 0
  else (numWords : ℝ) * Real.logb 2 (wordlistSize : ℝ)

/-- Modelled from Python's Unicode-aware `str.islower` on one character,
restricted to the ranges this development uses: ASCII lowercase letters.
Uncased letters such as CJK ideographs are not lowercase in Python. -/
def pyIsLower (c : Char) : Bool := 'a' ≤ c && c ≤ 'z'

/-- Modelled from Python's `str.isupper` on one character: ASCII uppercase
letters; uncased letters are not uppercase. -/
def pyIsUpper (c : Char) : Bool := 'A' ≤ c && c ≤ 'Z'

/-- Modelled from Python's `str.isdigit` on one character: ASCII digits;
CJK ideographs are not digits. -/
def pyIsDigit (c : Char) : Bool := '0' ≤ c && c ≤ '9'

/-- Modelled from Python's Unicode-aware `str.isalnum` on one character:
true for ASCII letters and digits, and also for alphabetic characters that
are neither cased nor digits, such as the CJK unified ideographs
U+4E00–U+9FFF (`'漢'.isalnum()` is `True` in Python while `islower`,
`isupper` and `isdigit` are all `False` on it). -/
def pyIsAlnum (c : Char) : Bool :=
  pyIsLower c || pyIsUpper c || pyIsDigit c || (0x4E00 ≤ c.toNat && c.toNat ≤ 0x9FFF)

/-- Python `any(c.islower() for c in password)`. -/
def hasLower (pw : String) : Bool := pw.data.any pyIsLower

/-- Python `any(c.isupper() for c in password)`. -/
def hasUpper (pw : String) : Bool := pw.data.any pyIsUpper

/-- Python `any(c.isdigit() for c in password)`. -/
def hasDigit (pw : String) : Bool := pw.data.any pyIsDigit

/-- Python `any(not c.isalnum() for c in password)`. -/
def hasSymbol (pw : String) : Bool := pw.data.any (fun c => !(pyIsAlnum c))

/-- The `charset_size` accumulation of `estimate_entropy_password`:
26 for lowercase, 26 for uppercase, 10 for digits, 32 for symbols, summed
over the classes that appear. -/
def charsetSize (pw : String) : Nat :=
  (if hasLower pw then 26 else 0) + (if hasUpper pw then 26 else 0) +
    (if hasDigit pw then 10 else 0) + (if hasSymbol pw then 32 else 0)

/-- Model of `estimate_entropy_password`: zero for the empty string, zero
when no character class was recognised, otherwise
`len(password) * log2(charset_size)` over exact reals. -/
noncomputable def estimate_entropy_password (pw : String) : ℝ :=
  if pw = "" then 0
  else if charsetSize pw = 0 then 0
  else (pw.length : ℝ) * Real.logb 2 (charsetSize pw : ℝ)

example : load_word_list ["# c", " alpha ", "", "beta"] = Except.ok ["alpha", "beta"] := by rfl
example : load_word_list ["# c", "  "] = Except.error PyExc.valueError := by rfl
example : charsetSize "aB3!" = 94 := by decide
example : charsetSize "漢" = 0 := by decide
example : hasSymbol "漢" = false := by decide

theorem b64Digit_b64Char : ∀ n < 64, b64Digit (b64Char n) = some n := by decide

theorem b64Char_ne_pad : ∀ n < 64, ¬ (b64Char n = '=') := by decide

theorem a2b_step0 (s : Nat) (hs : s < 64) (cs : List Char) (left pads : Nat) (acc : Bytes) :
    a2bBase64 (b64Char s :: cs) 0 left pads acc = a2bBase64 cs 1 s 0 acc := by
  simp [a2bBase64, b64Char_ne_pad s hs, b64Digit_b64Char s hs]

theorem a2b_step1 (s : Nat) (hs : s < 64) (cs : List Char) (left pads : Nat) (acc : Bytes) :
    a2bBase64 (b64Char s :: cs) 1 left pads acc =
      a2bBase64 cs 2 (s % 16) 0 ((left * 4 + s / 16) :: acc) := by
  simp [a2bBase64, b64Char_ne_pad s hs, b64Digit_b64Char s hs]

theorem a2b_step2 (s : Nat) (hs : s < 64) (cs : List Char) (left pads : Nat) (acc : Bytes) :
    a2bBase64 (b64Char s :: cs) 2 left pads acc =
      a2bBase64 cs 3 (s % 4) 0 ((left * 16 + s / 4) :: acc) := by
  simp [a2bBase64, b64Char_ne_pad s hs, b64Digit_b64Char s hs]

theorem a2b_step3 (s : Nat) (hs : s < 64) (cs : List Char) (left pads : Nat) (acc : Bytes) :
    a2bBase64 (b64Char s :: cs) 3 left pads acc =
      a2bBase64 cs 0 0 0 ((left * 64 + s) :: acc) := by
  simp [a2bBase64, b64Char_ne_pad s hs, b64Digit_b64Char s hs]

theorem a2b_group (a b c : Nat) (ha : a < 256) (hb : b < 256) (hc : c < 256)
    (cs : List Char) (acc : Bytes) :
    a2bBase64 (b64Char (a / 4) :: b64Char (a % 4 * 16 + b / 16) ::
        b64Char (b % 16 * 4 + c / 64) :: b64Char (c % 64) :: cs) 0 0 0 acc =
      a2bBase64 cs 0 0 0 (c :: b :: a :: acc) := by
  rw [a2b_step0 _ (by omega), a2b_step1 _ (by omega), a2b_step2 _ (by omega),
    a2b_step3 _ (by omega)]
  have e1 : a / 4 * 4 + (a % 4 * 16 + b / 16) / 16 = a := by omega
  have e2 : (a % 4 * 16 + b / 16) % 16 * 16 + (b % 16 * 4 + c / 64) / 4 = b := by omega
  have e3 : (b % 16 * 4 + c / 64) % 4 * 64 + c % 64 = c := by omega
  rw [e1, e2, e3]

theorem a2b_tail1 (a : Nat) (ha : a < 256) (acc : Bytes) :
    a2bBase64 [b64Char (a / 4), b64Char (a % 4 * 16), '=', '='] 0 0 0 acc =
      some (acc.reverse ++ [a]) := by
  rw [a2b_step0 _ (by omega), a2b_step1 _ (by omega)]
  have e1 : a / 4 * 4 + a % 4 * 16 / 16 = a := by omega
  rw [e1]
  simp [a2bBase64]

theorem a2b_tail2 (a b : Nat) (ha : a < 256) (hb : b < 256) (acc : Bytes) :
    a2bBase64 [b64Char (a / 4), b64Char (a % 4 * 16 + b / 16), b64Char (b % 16 * 4), '=']
        0 0 0 acc = some (acc.reverse ++ [a, b]) := by
  rw [a2b_step0 _ (by omega), a2b_step1 _ (by omega), a2b_step2 _ (by omega)]
  have e1 : a / 4 * 4 + (a % 4 * 16 + b / 16) / 16 = a := by omega
  have e2 : (a % 4 * 16 + b / 16) % 16 * 16 + b % 16 * 4 / 4 = b := by omega
  rw [e1, e2]
  simp [a2bBase64]

theorem a2b_encode :
    ∀ bs : Bytes, (∀ b ∈ bs, b < 256) →
      ∀ acc : Bytes, a2bBase64 (b64EncodeGroups bs) 0 0 0 acc = some (acc.reverse ++ bs) := by
  intro bs
  induction bs using b64EncodeGroups.induct with
  | case1 a b c rest ih =>
    intro h acc
    rw [b64EncodeGroups, a2b_group a b c (h a (by simp)) (h b (by simp)) (h c (by simp))]
    rw [ih (fun x hx => h x (by simp [hx])) (c :: b :: a :: acc)]
    simp
  | case2 a b =>
    intro h acc
    rw [b64EncodeGroups, a2b_tail2 a b (h a (by simp)) (h b (by simp))]
  | case3 a =>
    intro h acc
    rw [b64EncodeGroups, a2b_tail1 a (h a (by simp))]
  | case4 =>
    intro h acc
    simp [b64EncodeGroups, a2bBase64]

/-- Base64 round trip: decoding an encoded real-byte sequence recovers it. -/
theorem urlsafe_roundtrip (bs : Bytes) (h : ∀ b ∈ bs, b < 256) :
    urlsafeB64Decode (urlsafeB64Encode bs) = some bs := by
  have hdata : (String.mk (b64EncodeGroups bs)).data = b64EncodeGroups bs := rfl
  rw [urlsafeB64Decode, urlsafeB64Encode, hdata]
  simpa using a2b_encode bs h []

theorem char_toNat_lt (c : Char) : c.toNat < 1114112 := by
  rcases c.valid with h | h
  · exact Nat.lt_trans h (by norm_num)
  · exact h.2

theorem utf8EncodeCp_lt (n : Nat) (hn : n < 1114112) : ∀ b ∈ utf8EncodeCp n, b < 256 := by
  intro b hb
  rw [utf8EncodeCp] at hb
  by_cases h1 : n < 128
  · rw [if_pos h1] at hb
    simp at hb
    omega
  · rw [if_neg h1] at hb
    by_cases h2 : n < 2048
    · rw [if_pos h2] at hb
      simp at hb
      rcases hb with rfl | rfl <;> omega
    · rw [if_neg h2] at hb
      by_cases h3 : n < 65536
      · rw [if_pos h3] at hb
        simp at hb
        rcases hb with rfl | rfl | rfl <;> omega
      · rw [if_neg h3] at hb
        simp at hb
        rcases hb with rfl | rfl | rfl | rfl <;> omega

theorem utf8Encode_lt (s : String) : ∀ b ∈ utf8Encode s, b < 256 := by
  intro b hb
  rw [utf8Encode] at hb
  rcases List.mem_flatten.mp hb with ⟨l, hl, hbl⟩
  rcases List.mem_map.mp hl with ⟨c, _, rfl⟩
  exact utf8EncodeCp_lt c.toNat (char_toNat_lt c) b hbl

theorem utf8_decode_encode (n : Nat) (hn : n < 1114112) (rest : Bytes) (acc : List Nat) :
    utf8DecodeLoop (utf8EncodeCp n ++ rest) 0 0 acc = utf8DecodeLoop rest 0 0 (n :: acc) := by
  rw [utf8EncodeCp]
  by_cases h1 : n < 128
  · simp only [if_pos h1, List.cons_append, List.nil_append]
    simp [utf8DecodeLoop, h1]
  · by_cases h2 : n < 2048
    · simp only [if_neg h1, if_pos h2, List.cons_append, List.nil_append]
      have hb1 : ¬ (192 + n / 64 < 128) := by omega
      have hb2 : ¬ (192 + n / 64 < 192) := by omega
      have hb3 : 192 + n / 64 < 224 := by omega
      have hc1 : 128 ≤ 128 + n % 64 ∧ 128 + n % 64 < 192 := by omega
      have e : (192 + n / 64 - 192) * 64 + (128 + n % 64 - 128) = n := by omega
      simp only [utf8DecodeLoop, if_pos rfl, if_neg hb1, if_neg hb2, if_pos hb3, if_pos hc1, e]
      simp
    · by_cases h3 : n < 65536
      · simp only [if_neg h1, if_neg h2, if_pos h3, List.cons_append, List.nil_append]
        have hb1 : ¬ (224 + n / 4096 < 128) := by omega
        have hb2 : ¬ (224 + n / 4096 < 192) := by omega
        have hb3 : ¬ (224 + n / 4096 < 224) := by omega
        have hb4 : 224 + n / 4096 < 240 := by omega
        have hc1 : 128 ≤ 128 + n / 64 % 64 ∧ 128 + n / 64 % 64 < 192 := by omega
        have hc2 : 128 ≤ 128 + n % 64 ∧ 128 + n % 64 < 192 := by omega
        have e : ((224 + n / 4096 - 224) * 64 + (128 + n / 64 % 64 - 128)) * 64 +
            (128 + n % 64 - 128) = n := by omega
        simp only [utf8DecodeLoop, if_pos rfl, if_neg hb1, if_neg hb2, if_neg hb3, if_pos hb4,
          if_pos hc1, if_pos hc2, e]
        simp
      · simp only [if_neg h1, if_neg h2, if_neg h3, List.cons_append, List.nil_append]
        have hb1 : ¬ (240 + n / 262144 < 128) := by omega
        have hb2 : ¬ (240 + n / 262144 < 192) := by omega
        have hb3 : ¬ (240 + n / 262144 < 224) := by omega
        have hb4 : ¬ (240 + n / 262144 < 240) := by omega
        have hb5 : 240 + n / 262144 < 248 := by omega
        have hc1 : 128 ≤ 128 + n / 4096 % 64 ∧ 128 + n / 4096 % 64 < 192 := by omega
        have hc2 : 128 ≤ 128 + n / 64 % 64 ∧ 128 + n / 64 % 64 < 192 := by omega
        have hc3 : 128 ≤ 128 + n % 64 ∧ 128 + n % 64 < 192 := by omega
        have e : (((240 + n / 262144 - 240) * 64 + (128 + n / 4096 % 64 - 128)) * 64 +
            (128 + n / 64 % 64 - 128)) * 64 + (128 + n % 64 - 128) = n := by omega
        simp only [utf8DecodeLoop, if_pos rfl, if_neg hb1, if_neg hb2, if_neg hb3, if_neg hb4,
          if_pos hb5, if_pos hc1, if_pos hc2, if_pos hc3, e]
        simp
theorem utf8DecodeLoop_encode (l : List Char) :
    ∀ acc, utf8DecodeLoop ((l.map (fun c => utf8EncodeCp c.toNat)).flatten) 0 0 acc =
      some (acc.reverse ++ l.map Char.toNat) := by
  induction l with
  | nil =>
    intro acc
    simp [utf8DecodeLoop]
  | cons c cs ih =>
    intro acc
    rw [List.map_cons, List.flatten_cons, utf8_decode_encode c.toNat (char_toNat_lt c), ih]
    simp

/-- UTF-8 round trip: decoding an encoded string recovers it. -/
theorem utf8_roundtrip (s : String) : utf8Decode (utf8Encode s) = some s := by
  rw [utf8Encode, utf8Decode, utf8DecodeLoop_encode s.data []]
  have : (s.data.map Char.toNat).map Char.ofNat = s.data := by
    rw [List.map_map]
    have : (Char.ofNat ∘ Char.toNat) = id := by
      funext c
      exact Char.ofNat_toNat c
    rw [this, List.map_id]
  simp [this]

theorem packed_bytes_lt (A : AEADModel) (P W : String) (salt nonce : Bytes)
    (hsb : ∀ b ∈ salt, b < 256) (hnb : ∀ b ∈ nonce, b < 256) :
    ∀ b ∈ salt ++ nonce ++ A.sealOp (derive_key W salt 200000) nonce (utf8Encode P), b < 256 := by
  intro b hb
  rcases List.mem_append.mp hb with h | h
  · rcases List.mem_append.mp h with h | h
    · exact hsb b h
    · exact hnb b h
  · exact A.sealOp_bytes _ _ _ (utf8Encode_lt P) b h

theorem token_decodes (A : AEADModel) (P W : String) (salt nonce : Bytes)
    (hsb : ∀ b ∈ salt, b < 256) (hnb : ∀ b ∈ nonce, b < 256) :
    urlsafeB64Decode (encrypt A P W salt nonce) =
      some (salt ++ nonce ++ A.sealOp (derive_key W salt 200000) nonce (utf8Encode P)) := by
  simp only [encrypt]
  exact urlsafe_roundtrip _ (packed_bytes_lt A P W salt nonce hsb hnb)

theorem packed_take_16 (salt nonce ct : Bytes) (hs : salt.length = 16) :
    (salt ++ nonce ++ ct).take 16 = salt := by
  rw [List.append_assoc]
  exact List.take_left' hs

theorem packed_nonce (salt nonce ct : Bytes) (hs : salt.length = 16) (hn : nonce.length = 12) :
    ((salt ++ nonce ++ ct).drop 16).take 12 = nonce := by
  rw [List.append_assoc, List.drop_left' hs]
  exact List.take_left' hn

theorem packed_ct (salt nonce ct : Bytes) (hs : salt.length = 16) (hn : nonce.length = 12) :
    (salt ++ nonce ++ ct).drop 28 = ct := by
  rw [List.append_assoc]
  have h1 : ((salt ++ (nonce ++ ct)).drop 16).drop 12 = (salt ++ (nonce ++ ct)).drop 28 := by
    rw [List.drop_drop]
  rw [← h1, List.drop_left' hs, List.drop_left' hn]

theorem decryptT_of_valid (A : AEADModel) (P W W2 : String) (salt nonce : Bytes)
    (hs : salt.length = 16) (hsb : ∀ b ∈ salt, b < 256)
    (hn : nonce.length = 12) (hnb : ∀ b ∈ nonce, b < 256) :
    decryptT A (encrypt A P W salt nonce) W2 =
      match A.openOp (derive_key W2 salt 200000) nonce
          (A.sealOp (derive_key W salt 200000) nonce (utf8Encode P)) with
      | none => (Except.error PyExc.invalidTag, true)
      | some ptBytes =>
        match utf8Decode ptBytes with
        | none => (Except.error PyExc.unicodeDecodeError, true)
        | some pt => (Except.ok pt, true) := by
  have hlt : ¬ (nonce.length < 8) := by omega
  simp only [decryptT, token_decodes A P W salt nonce hsb hnb,
    packed_take_16 salt nonce _ hs, packed_nonce salt nonce _ hs hn, packed_ct salt nonce _ hs hn,
    if_neg hlt]

/-- Sixteen zero bytes: a concrete stand-in for one `os.urandom(16)` salt
draw. -/
def salt0 : Bytes := List.replicate 16 0

/-- Twelve zero bytes: a concrete stand-in for one `os.urandom(12)` nonce
draw. -/
def nonce0 : Bytes := List.replicate 12 0

/-- The string of 44 capital `A` characters: a well-formed base64 token
whose 33 decoded bytes are all zero. -/
def tokenA44 : String := String.mk (List.replicate 44 'A')

/-- C1: Round trip — for every plaintext P and password W (any fresh salt
and nonce of the shapes `os.urandom` yields, any AES-GCM implementation
meeting its contract), `decrypt (encrypt P W) W` returns exactly P. -/
theorem round_trip_decrypt_encrypt (A : AEADModel) (P W : String) (salt nonce : Bytes)
    (hs : salt.length = 16) (hsb : ∀ b ∈ salt, b < 256)
    (hn : nonce.length = 12) (hnb : ∀ b ∈ nonce, b < 256) :
    decrypt A (encrypt A P W salt nonce) W = Except.ok P := by
  rw [decrypt, decryptT_of_valid A P W W salt nonce hs hsb hn hnb]
  simp only [AEADModel.openOp_sealOp, utf8_roundtrip]

/-- Witness for C1 at concrete inputs. -/
theorem round_trip_decrypt_encrypt_witness :
    decrypt fpAEAD (encrypt fpAEAD "attack at dawn" "hunter2" salt0 nonce0) "hunter2" =
      Except.ok "attack at dawn" :=
  round_trip_decrypt_encrypt fpAEAD "attack at dawn" "hunter2" salt0 nonce0
    (by decide) (by decide) (by decide) (by decide)

/-- C5: Wrong-password rejection — under the AEAD authentication contract of
spec §4.2 (opening under the key derived from the other password fails, the
`hauth` hypothesis), decrypting a token under a password different from the
one that encrypted it fails with `InvalidTag` instead of returning any
plaintext. -/
theorem wrong_password_rejected (A : AEADModel) (P W1 W2 : String) (salt nonce : Bytes)
    (hs : salt.length = 16) (hsb : ∀ b ∈ salt, b < 256)
    (hn : nonce.length = 12) (hnb : ∀ b ∈ nonce, b < 256)
    (hW : W1 ≠ W2)
    (hauth : A.openOp (derive_key W2 salt 200000) nonce
        (A.sealOp (derive_key W1 salt 200000) nonce (utf8Encode P)) = none) :
    decrypt A (encrypt A P W1 salt nonce) W2 = Except.error PyExc.invalidTag := by
  rw [decrypt, decryptT_of_valid A P W1 W2 salt nonce hs hsb hn hnb]
  simp only [hauth]

/-- Witness for C5 at concrete inputs. -/
theorem wrong_password_rejected_witness :
    decrypt fpAEAD (encrypt fpAEAD "hi" "alpha" salt0 nonce0) "bravo" =
      Except.error PyExc.invalidTag :=
  wrong_password_rejected fpAEAD "hi" "alpha" "bravo" salt0 nonce0
    (by decide) (by decide) (by decide) (by decide) (by decide) (by decide)

/-- C4: Token wire format — the token is the URL-safe base64 encoding (with
padding) of `salt(16) ++ nonce(12) ++ ciphertext_with_tag`, its decoding
recovers that byte sequence, and the fixed-offset slices 0–16, 16–28 and
28–end used by `decrypt` recover exactly the salt, the nonce, and the
ciphertext-with-tag. -/
theorem token_wire_format (A : AEADModel) (P W : String) (salt nonce : Bytes)
    (hs : salt.length = 16) (hsb : ∀ b ∈ salt, b < 256)
    (hn : nonce.length = 12) (hnb : ∀ b ∈ nonce, b < 256) :
    encrypt A P W salt nonce =
        urlsafeB64Encode
          (salt ++ nonce ++ A.sealOp (derive_key W salt 200000) nonce (utf8Encode P)) ∧
      urlsafeB64Decode (encrypt A P W salt nonce) =
        some (salt ++ nonce ++ A.sealOp (derive_key W salt 200000) nonce (utf8Encode P)) ∧
      (salt ++ nonce ++ A.sealOp (derive_key W salt 200000) nonce (utf8Encode P)).take 16 =
        salt ∧
      ((salt ++ nonce ++ A.sealOp (derive_key W salt 200000) nonce (utf8Encode P)).drop 16).take
          12 = nonce ∧
      (salt ++ nonce ++ A.sealOp (derive_key W salt 200000) nonce (utf8Encode P)).drop 28 =
        A.sealOp (derive_key W salt 200000) nonce (utf8Encode P) :=
  ⟨rfl, token_decodes A P W salt nonce hsb hnb, packed_take_16 salt nonce _ hs,
    packed_nonce salt nonce _ hs hn, packed_ct salt nonce _ hs hn⟩

/-- Witness for C4 at concrete inputs. -/
theorem token_wire_format_witness :
    encrypt fpAEAD "hi" "pw" salt0 nonce0 =
        urlsafeB64Encode
          (salt0 ++ nonce0 ++ fpAEAD.sealOp (derive_key "pw" salt0 200000) nonce0
            (utf8Encode "hi")) ∧
      urlsafeB64Decode (encrypt fpAEAD "hi" "pw" salt0 nonce0) =
        some (salt0 ++ nonce0 ++ fpAEAD.sealOp (derive_key "pw" salt0 200000) nonce0
          (utf8Encode "hi")) ∧
      (salt0 ++ nonce0 ++ fpAEAD.sealOp (derive_key "pw" salt0 200000) nonce0
          (utf8Encode "hi")).take 16 = salt0 ∧
      ((salt0 ++ nonce0 ++ fpAEAD.sealOp (derive_key "pw" salt0 200000) nonce0
          (utf8Encode "hi")).drop 16).take 12 = nonce0 ∧
      (salt0 ++ nonce0 ++ fpAEAD.sealOp (derive_key "pw" salt0 200000) nonce0
          (utf8Encode "hi")).drop 28 =
        fpAEAD.sealOp (derive_key "pw" salt0 200000) nonce0 (utf8Encode "hi") :=
  token_wire_format fpAEAD "hi" "pw" salt0 nonce0 (by decide) (by decide) (by decide) (by decide)

/-- C10: Exact token size — the token's base64 decoding succeeds and the
decoded byte length is exactly 16 (salt) + 12 (nonce) + UTF-8 length of P
+ 16 (tag). -/
theorem token_decoded_length (A : AEADModel) (P W : String) (salt nonce : Bytes)
    (hs : salt.length = 16) (hsb : ∀ b ∈ salt, b < 256)
    (hn : nonce.length = 12) (hnb : ∀ b ∈ nonce, b < 256) :
    urlsafeB64Decode (encrypt A P W salt nonce) =
        some (salt ++ nonce ++ A.sealOp (derive_key W salt 200000) nonce (utf8Encode P)) ∧
      (salt ++ nonce ++ A.sealOp (derive_key W salt 200000) nonce (utf8Encode P)).length =
        16 + 12 + (utf8Encode P).length + 16 := by
  refine ⟨token_decodes A P W salt nonce hsb hnb, ?_⟩
  simp only [List.length_append, AEADModel.sealOp_length, hs, hn]
  omega

/-- Witness for C10 at the empty plaintext: the token decodes to exactly 44
bytes, the ciphertext field being only the 16-byte tag. -/
theorem token_decoded_length_witness :
    urlsafeB64Decode (encrypt fpAEAD "" "pw" salt0 nonce0) =
        some (salt0 ++ nonce0 ++ fpAEAD.sealOp (derive_key "pw" salt0 200000) nonce0
          (utf8Encode "")) ∧
      (salt0 ++ nonce0 ++ fpAEAD.sealOp (derive_key "pw" salt0 200000) nonce0
          (utf8Encode "")).length = 16 + 12 + (utf8Encode "").length + 16 ∧
      (salt0 ++ nonce0 ++ fpAEAD.sealOp (derive_key "pw" salt0 200000) nonce0
          (utf8Encode "")).length = 44 := by
  obtain ⟨h1, h2⟩ :=
    token_decoded_length fpAEAD "" "pw" salt0 nonce0 (by decide) (by decide) (by decide)
      (by decide)
  refine ⟨h1, h2, ?_⟩
  rw [h2]
  decide

/-- C2 counterexample: three failing `decrypt` calls surface three different
exception types — `binascii.Error` for a one-character token,
`InvalidTag` for a well-formed token with a too-short ciphertext, and
`ValueError` (the cipher's nonce-length check) for the claim's own
`"not-valid-base64!!"` example — so a caller of `decrypt` can distinguish
failure causes by exception type, and the named example does not surface
the same failure as a wrong password. -/
theorem decrypt_failures_distinguishable :
    decrypt fpAEAD "A" "pw" = Except.error PyExc.binasciiError ∧
      decrypt fpAEAD tokenA44 "pw" = Except.error PyExc.invalidTag ∧
      decrypt fpAEAD "not-valid-base64!!" "pw" = Except.error PyExc.valueError ∧
      PyExc.binasciiError ≠ PyExc.invalidTag ∧
      PyExc.valueError ≠ PyExc.invalidTag ∧
      PyExc.binasciiError ≠ PyExc.valueError :=
  ⟨by rfl, by rfl, by rfl, by decide, by decide, by decide⟩

/-- C2 amended: the single opaque decryption failure exists one level up, at
the CLI boundary: `handle_decrypt` catches every exception and prints the
same fixed text, so any two failing (token, password) pairs are
indistinguishable there, whatever the underlying exception types were. -/
theorem cli_failure_opaque (A : AEADModel) (t1 w1 t2 w2 : String) (e1 e2 : PyExc)
    (h1 : decrypt A t1 w1 = Except.error e1) (h2 : decrypt A t2 w2 = Except.error e2) :
    handleDecryptMessage A t1 w1 = handleDecryptMessage A t2 w2 := by
  simp only [handleDecryptMessage, h1, h2]

/-- Witness for the amended C2 at concrete inputs with distinct underlying
exceptions. -/
theorem cli_failure_opaque_witness :
    handleDecryptMessage fpAEAD "A" "pw" = handleDecryptMessage fpAEAD tokenA44 "pw" :=
  cli_failure_opaque fpAEAD "A" "pw" tokenA44 "pw" PyExc.binasciiError PyExc.invalidTag
    (by rfl) (by rfl)

/-- C3 counterexample: `tokenA44` decodes to 33 bytes, fewer than the 44 =
16+12+16 minimum the claim names, yet `decrypt` attempts key derivation
(the instrumentation flag is true) and the failure is `InvalidTag` from the
cipher layer — no format error is raised before cryptographic work. -/
theorem no_format_validation_counterexample :
    urlsafeB64Decode tokenA44 = some (List.replicate 33 0) ∧
      (List.replicate 33 0 : Bytes).length < 16 + 12 + 16 ∧
      decryptT fpAEAD tokenA44 "pw" = (Except.error PyExc.invalidTag, true) :=
  ⟨by decide, by decide, by rfl⟩

/-- C3 amended: `decrypt` performs no format or length validation of its
own.  The only failure surfaced before key derivation is the base64
decoder's `binascii.Error`, and every token whose base64 decoding succeeds
— whatever its decoded length — proceeds to key derivation. -/
theorem decrypt_no_format_validation (A : AEADModel) (T W : String) :
    (urlsafeB64Decode T = none →
      decryptT A T W = (Except.error PyExc.binasciiError, false)) ∧
    (∀ packed, urlsafeB64Decode T = some packed → (decryptT A T W).2 = true) := by
  constructor
  · intro h
    simp only [decryptT, h]
  · intro packed h
    simp only [decryptT, h]
    split
    · rfl
    · split
      · rfl
      · split
        · rfl
        · rfl

/-- Witness for the amended C3 at concrete inputs. -/
theorem decrypt_no_format_validation_witness :
    decryptT fpAEAD "A" "pw" = (Except.error PyExc.binasciiError, false) ∧
      (decryptT fpAEAD tokenA44 "pw").2 = true :=
  ⟨(decrypt_no_format_validation fpAEAD "A" "pw").1 (by decide),
    (decrypt_no_format_validation fpAEAD tokenA44 "pw").2 (List.replicate 33 0) (by decide)⟩

/-- C6 counterexample: the non-empty password `"漢"` (a CJK ideograph:
alphanumeric for Python, but neither lowercase, uppercase, digit, nor a
non-alphanumeric symbol) exhibits none of the four recognized classes, so a
no-class result does occur for a non-empty password, and the estimator
returns 0 for it. -/
theorem entropy_password_no_class_counterexample :
    ("漢" : String) ≠ "" ∧
      hasLower "漢" = false ∧ hasUpper "漢" = false ∧ hasDigit "漢" = false ∧
      hasSymbol "漢" = false ∧
      estimate_entropy_password "漢" = 0 := by
  refine ⟨by decide, by decide, by decide, by decide, by decide, ?_⟩
  rw [estimate_entropy_password, if_neg (by decide), if_pos (by decide)]

theorem entropy_password_of_charset_zero (pw : String) (h : charsetSize pw = 0) :
    estimate_entropy_password pw = 0 := by
  rw [estimate_entropy_password]
  split_ifs <;> rfl

/-- C6 amended: the estimator returns 0 for the empty string and for any
password in which none of the four recognized classes appears; contrary to
the claim, such no-class passwords exist non-empty (uncased alphanumeric
characters such as CJK ideographs), so the defensive zero is reachable. -/
theorem entropy_password_defensive_zero (pw : String)
    (h : pw = "" ∨ (hasLower pw = false ∧ hasUpper pw = false ∧ hasDigit pw = false ∧
      hasSymbol pw = false)) :
    estimate_entropy_password pw = 0 := by
  rcases h with rfl | ⟨h1, h2, h3, h4⟩
  · rw [estimate_entropy_password, if_pos rfl]
  · exact entropy_password_of_charset_zero pw (by simp [charsetSize, h1, h2, h3, h4])

/-- Witness for the amended C6: the empty string and a concrete no-class
non-empty password both score zero. -/
theorem entropy_password_defensive_zero_witness :
    estimate_entropy_password "" = 0 ∧ estimate_entropy_password "漢" = 0 :=
  ⟨entropy_password_defensive_zero "" (Or.inl rfl),
    entropy_password_defensive_zero "漢" (Or.inr ⟨by decide, by decide, by decide, by decide⟩)⟩

/-- C7 counterexample: loading enforces neither distinctness nor a minimum
size of two — a file of two identical lines loads as a duplicated list, and
a one-line file loads as a singleton. -/
theorem word_list_counterexample :
    load_word_list ["alpha", "alpha"] = Except.ok ["alpha", "alpha"] ∧
      ¬ (["alpha", "alpha"] : List String).Nodup ∧
      load_word_list ["alpha"] = Except.ok ["alpha"] ∧
      (["alpha"] : List String).length < 2 :=
  ⟨by rfl, by decide, by rfl, by decide⟩

/-- C7 amended: the loaded sequence is exactly the stripped lines that are
non-empty and do not start with `#`, in file order; every loaded word is
non-empty and does not start with `#`; loading fails (with the one
`ValueError` the spec names `EmptyWordList`) exactly when there are no
usable words.  Neither distinctness nor size at least two is enforced. -/
theorem load_word_list_spec (lines : List String) :
    (load_word_list lines = Except.error PyExc.valueError ↔
      (lines.map pyStrip).filter (fun w => w != "" && !(startsWithHash w)) = []) ∧
    ((lines.map pyStrip).filter (fun w => w != "" && !(startsWithHash w)) ≠ [] →
      load_word_list lines =
        Except.ok ((lines.map pyStrip).filter (fun w => w != "" && !(startsWithHash w)))) ∧
    (∀ ws, load_word_list lines = Except.ok ws →
      ∀ w ∈ ws, w ≠ "" ∧ startsWithHash w = false) := by
  simp only [load_word_list]
  by_cases hE : (lines.map pyStrip).filter (fun w => w != "" && !(startsWithHash w)) = []
  · rw [if_pos hE]
    refine ⟨⟨fun _ => hE, fun _ => rfl⟩, fun hne => absurd hE hne, ?_⟩
    intro ws hws
    cases hws
  · rw [if_neg hE]
    refine ⟨⟨fun h => ?_, fun h => absurd h hE⟩, fun _ => rfl, ?_⟩
    · cases h
    · intro ws hws
      obtain rfl := Except.ok.inj hws
      intro w hw
      have hpred := List.of_mem_filter hw
      simp only [Bool.and_eq_true, bne_iff_ne, ne_eq, Bool.not_eq_true'] at hpred
      exact hpred

/-- Witness for the amended C7 at a concrete file. -/
theorem load_word_list_spec_witness :
    load_word_list ["# header", " alpha ", "", "beta"] = Except.ok ["alpha", "beta"] ∧
      ("alpha" ≠ "" ∧ startsWithHash "alpha" = false) :=
  ⟨(load_word_list_spec ["# header", " alpha ", "", "beta"]).2.1 (by decide),
    (load_word_list_spec ["# header", " alpha ", "", "beta"]).2.2 ["alpha", "beta"] (by rfl)
      "alpha" (by decide)⟩

/-- C8: `generate_passphrase` fails with the `ValueError` the spec names
`InvalidParameter` when the word count is not positive; for a positive
count it returns the hyphen-join of exactly `count` words, each of which is
an element of the word list (draws are independent, so repetitions —
replacement — are possible). -/
theorem generate_passphrase_spec (wordList : List String) (pick : Nat → Nat) (count : Int)
    (hwl : wordList ≠ []) :
    (count ≤ 0 → generate_passphrase wordList pick count = Except.error PyExc.valueError) ∧
    (0 < count → ∃ ws : List String,
      generate_passphrase wordList pick count = Except.ok (String.intercalate "-" ws) ∧
        (ws.length : Int) = count ∧ ∀ w ∈ ws, w ∈ wordList) := by
  constructor
  · intro h
    rw [generate_passphrase, if_pos h]
  · intro h
    refine ⟨(List.range count.toNat).map
      (fun i => wordList.getD (pick i % wordList.length) ""), ?_, ?_, ?_⟩
    · rw [generate_passphrase, if_neg (by omega)]
    · simp [Int.toNat_of_nonneg (by omega : (0 : Int) ≤ count)]
    · intro w hw
      rcases List.mem_map.mp hw with ⟨i, _, rfl⟩
      have hlen : 0 < wordList.length := List.length_pos.mpr hwl
      have hidx : pick i % wordList.length < wordList.length := Nat.mod_lt _ hlen
      rw [List.getD_eq_getElem _ _ hidx]
      exact List.getElem_mem hidx

/-- Witness for C8 at concrete inputs: a non-positive count fails, a count
of three yields three hyphen-joined words from the list. -/
theorem generate_passphrase_spec_witness :
    generate_passphrase ["alpha", "beta"] (fun i => i) (-3) = Except.error PyExc.valueError ∧
      generate_passphrase ["alpha", "beta"] (fun i => i) 3 = Except.ok "alpha-beta-alpha" :=
  ⟨(generate_passphrase_spec ["alpha", "beta"] (fun i => i) (-3) (by decide)).1 (by decide),
    by rfl⟩

/-- The character classes of `p1` are a subset of those of `p2`: every one
of the four recognized class flags that is set for `p1` is set for `p2`. -/
def classesLE (p1 p2 : String) : Prop :=
  (hasLower p1 = true → hasLower p2 = true) ∧ (hasUpper p1 = true → hasUpper p2 = true) ∧
    (hasDigit p1 = true → hasDigit p2 = true) ∧ (hasSymbol p1 = true → hasSymbol p2 = true)

instance (p1 p2 : String) : Decidable (classesLE p1 p2) := by
  rw [classesLE]
  infer_instance

theorem charsetSize_mono (p1 p2 : String) (h : classesLE p1 p2) :
    charsetSize p1 ≤ charsetSize p2 := by
  obtain ⟨h1, h2, h3, h4⟩ := h
  have g1 : (if hasLower p1 then 26 else 0) ≤ (if hasLower p2 then 26 else 0) := by
    by_cases a : hasLower p1 = true
    · rw [if_pos a, if_pos (h1 a)]
    · rw [if_neg a]
      exact Nat.zero_le _
  have g2 : (if hasUpper p1 then 26 else 0) ≤ (if hasUpper p2 then 26 else 0) := by
    by_cases a : hasUpper p1 = true
    · rw [if_pos a, if_pos (h2 a)]
    · rw [if_neg a]
      exact Nat.zero_le _
  have g3 : (if hasDigit p1 then 10 else 0) ≤ (if hasDigit p2 then 10 else 0) := by
    by_cases a : hasDigit p1 = true
    · rw [if_pos a, if_pos (h3 a)]
    · rw [if_neg a]
      exact Nat.zero_le _
  have g4 : (if hasSymbol p1 then 32 else 0) ≤ (if hasSymbol p2 then 32 else 0) := by
    by_cases a : hasSymbol p1 = true
    · rw [if_pos a, if_pos (h4 a)]
    · rw [if_neg a]
      exact Nat.zero_le _
  exact Nat.add_le_add (Nat.add_le_add (Nat.add_le_add g1 g2) g3) g4

theorem entropy_password_nonneg (pw : String) : 0 ≤ estimate_entropy_password pw := by
  rw [estimate_entropy_password]
  split_ifs with h1 h2
  · exact le_refl 0
  · exact le_refl 0
  · have hone : 1 ≤ (charsetSize pw : ℝ) := by
      exact_mod_cast Nat.one_le_iff_ne_zero.mpr h2
    exact mul_nonneg (Nat.cast_nonneg _) (Real.logb_nonneg (by norm_num) hone)

/-- C9: Entropy monotonicity — for a fixed word-list size above one the
passphrase entropy estimate is strictly increasing in the positive word
count, and the typed-password estimate is non-decreasing as more character
classes appear at equal password length. -/
theorem entropy_monotonicity :
    (∀ n1 n2 size : Int, 0 < n1 → n1 < n2 → 1 < size →
      estimate_entropy_passphrase n1 size < estimate_entropy_passphrase n2 size) ∧
    (∀ p1 p2 : String, p1.length = p2.length → classesLE p1 p2 →
      estimate_entropy_password p1 ≤ estimate_entropy_password p2) := by
  constructor
  · intro n1 n2 size h1 h2 hsize
    rw [estimate_entropy_passphrase, estimate_entropy_passphrase, if_neg (by omega),
      if_neg (by omega)]
    have hlog : 0 < Real.logb 2 (size : ℝ) := by
      refine Real.logb_pos (by norm_num) ?_
      exact_mod_cast hsize
    have hcast : (n1 : ℝ) < (n2 : ℝ) := by exact_mod_cast h2
    exact mul_lt_mul_of_pos_right hcast hlog
  · intro p1 p2 hlen hcl
    by_cases hz : charsetSize p1 = 0
    · rw [entropy_password_of_charset_zero p1 hz]
      exact entropy_password_nonneg p2
    · have hc12 : charsetSize p1 ≤ charsetSize p2 := charsetSize_mono p1 p2 hcl
      have hz2 : charsetSize p2 ≠ 0 := by omega
      have hp1 : p1 ≠ "" := by
        intro h
        rw [h] at hz
        exact hz (by decide)
      have hp2 : p2 ≠ "" := by
        intro h
        rw [h] at hz2
        exact hz2 (by decide)
      rw [estimate_entropy_password, estimate_entropy_password, if_neg hp1, if_neg hp2,
        if_neg hz, if_neg hz2, hlen]
      have hlogle : Real.logb 2 (charsetSize p1 : ℝ) ≤ Real.logb 2 (charsetSize p2 : ℝ) := by
        refine (Real.logb_le_logb (by norm_num) ?_ ?_).mpr ?_
        · exact_mod_cast Nat.pos_of_ne_zero hz
        · exact_mod_cast Nat.pos_of_ne_zero hz2
        · exact_mod_cast hc12
      exact mul_le_mul_of_nonneg_left hlogle (Nat.cast_nonneg _)

/-- Witness for C9 at concrete inputs: one versus two words over a four-word
list, and a lowercase-only password versus one adding an uppercase class at
the same length. -/
theorem entropy_monotonicity_witness :
    estimate_entropy_passphrase 1 4 < estimate_entropy_passphrase 2 4 ∧
      estimate_entropy_password "ab" ≤ estimate_entropy_password "aB" :=
  ⟨entropy_monotonicity.1 1 2 4 (by decide) (by decide) (by decide),
    entropy_monotonicity.2 "ab" "aB" (by decide) (by decide)⟩
